import Mathlib

/-!
Shallow embedding of the zip-puzzle core of this repository:
`src/game/types.ts` (level generation and the solvability verifier) and
`src/game/logic.ts` (the game state machine).

Conventions of the embedding:
* JavaScript numbers that hold grid coordinates, clue values and counters are
  embedded as `Int` (all arithmetic performed on them in the source is exact
  integer arithmetic).
* JavaScript `Set` objects (`visited`, `localVisited`, `indicesToMark`) are
  embedded as duplicate-free `List`s grown by `addUniq`, which mirrors
  `Set.add` (append if absent); `Set.size` is the list length.
* Out-of-range array reads, which would throw a `TypeError` in JavaScript,
  are totalised: `getCell?` returns `none` out of range and `setCell` is the
  identity out of range.  The game code only reads the grid after an explicit
  bounds check, so on well-formed states the two semantics agree.
* The non-null assertions (`!`) in `isPuzzleSolvable` can throw on malformed
  levels; `isPuzzleSolvable` therefore returns `Option Bool`, `none` marking
  the thrown `TypeError`.
* `Math.random()` draws are abstracted into explicit input streams, as the
  spec itself suggests (an injectable random source).
-/

/-- `Coordinate` from `src/game/types.ts`. -/
structure Coordinate where
  row : Int
  col : Int
deriving DecidableEq, Repr

/-- `Cell` from `src/game/types.ts`. -/
structure Cell where
  row : Int
  col : Int
  value : Option Int
  isFixed : Bool
  visitedOrder : Option Int
deriving DecidableEq, Repr

/-- Wall orientation: `'horizontal' | 'vertical'`. -/
inductive Orient where
  | horizontal
  | vertical
deriving DecidableEq, Repr

/-- `Wall` from `src/game/types.ts`. -/
structure Wall where
  row : Int
  col : Int
  orientation : Orient
deriving DecidableEq, Repr

/-- One entry of `Level.initialValues`. -/
structure InitialValue where
  row : Int
  col : Int
  value : Int
deriving DecidableEq, Repr

/-- `Level` from `src/game/types.ts`. -/
structure Level where
  id : String
  rows : Int
  cols : Int
  initialValues : List InitialValue
  walls : List Wall
deriving DecidableEq, Repr

/-- `GameState` from `src/game/types.ts`. -/
structure GameState where
  level : Level
  grid : List (List Cell)
  currentPath : List Coordinate
  isComplete : Bool
  lastVisitedNumber : Int
deriving DecidableEq, Repr

/-! ### Generic list helpers used by the embedding -/

/-- Update the element at index `n` (identity when out of range).  Embeds the
JavaScript in-place mutation `arr[n] = f (arr[n])` on a copied array. -/
def updAt (n : Nat) (f : α → α) : List α → List α
  | [] => []
  | x :: xs =>
    match n with
    | 0 => f x :: xs
    | k + 1 => x :: updAt k f xs

/-- `Set.add` on an insertion-ordered duplicate-free list. -/
def addUniq [DecidableEq α] (s : List α) (x : α) : List α :=
  if x ∈ s then s else s ++ [x]

/-- Read `grid[r][c]`, `none` when out of range (the source only reads the
grid after a bounds check). -/
def getCell? (grid : List (List Cell)) (r c : Int) : Option Cell :=
  if r < 0 ∨ c < 0 then none
  else (grid.get? r.toNat).bind (fun row => row.get? c.toNat)

/-- Read `grid[r][c]` with a default cell for out-of-range access. -/
def getCellD (grid : List (List Cell)) (r c : Int) : Cell :=
  (getCell? grid r c).getD ⟨0, 0, none, false, none⟩

/-- Write `grid[r][c] := f grid[r][c]` (identity when out of range). -/
def setCell (grid : List (List Cell)) (r c : Int) (f : Cell → Cell) :
    List (List Cell) :=
  if r < 0 ∨ c < 0 then grid
  else updAt r.toNat (updAt c.toNat f) grid

/-- `Math.max(...xs)` of a possibly empty list: `none` embeds the JavaScript
result `-Infinity` (which no integer equals). -/
def listMax? : List Int → Option Int
  | [] => none
  | x :: xs => some (xs.foldl max x)

/-! ### `src/game/logic.ts` -/

/-- `initializeGame` (`src/game/logic.ts`, lines 3–38): blank grid, clue
values stamped, the clue with value 1 (if any) seeded as the path start. -/
def initializeGame (level : Level) : GameState :=
  let grid0 : List (List Cell) :=
    (List.range level.rows.toNat).map (fun r =>
      (List.range level.cols.toNat).map (fun c =>
        ⟨(r : Int), (c : Int), none, false, none⟩))
  let grid1 : List (List Cell) :=
    level.initialValues.foldl
      (fun g iv =>
        setCell g iv.row iv.col
          (fun cell => { cell with value := some iv.value, isFixed := true }))
      grid0
  match level.initialValues.find? (fun v => decide (v.value = 1)) with
  | some startCell =>
    { level := level
      grid := setCell grid1 startCell.row startCell.col
        (fun cell => { cell with visitedOrder := some 1 })
      currentPath := [⟨startCell.row, startCell.col⟩]
      isComplete := false
      lastVisitedNumber := 1 }
  | none =>
    { level := level
      grid := grid1
      currentPath := []
      isComplete := false
      lastVisitedNumber := 0 }

/-- `hasWall` (`src/game/logic.ts`, lines 98–121). -/
def hasWall (walls : List Wall) (a b : Coordinate) : Bool :=
  walls.any (fun wall =>
    match wall.orientation with
    | .horizontal =>
      decide ((a.col = wall.col ∧ b.col = wall.col) ∧
        ((a.row = wall.row ∧ b.row = wall.row + 1) ∨
         (a.row = wall.row + 1 ∧ b.row = wall.row)))
    | .vertical =>
      decide ((a.row = wall.row ∧ b.row = wall.row) ∧
        ((a.col = wall.col ∧ b.col = wall.col + 1) ∨
         (a.col = wall.col + 1 ∧ b.col = wall.col))))

/-- `isValidMove` (`src/game/logic.ts`, lines 40–96).  Note the source
returns `true` for any target already present in `currentPath` (comment in
the source: "Allow clicking on ANY part of the existing path (for rewind)"),
before the visited / wall / sequence checks. -/
def isValidMove (gameState : GameState) (target : Coordinate) : Bool :=
  match gameState.currentPath.getLast? with
  | none => false
  | some current =>
    if target.row < 0 ∨ target.row ≥ gameState.level.rows ∨
        target.col < 0 ∨ target.col ≥ gameState.level.cols then
      false
    else
      match gameState.currentPath.findIdx? (fun p => decide (p = target)) with
      | some _ => true
      | none =>
        if (target.row - current.row).natAbs + (target.col - current.col).natAbs
            ≠ 1 then false
        else if (getCellD gameState.grid target.row target.col).visitedOrder
            ≠ none then false
        else if hasWall gameState.level.walls current target then false
        else
          match (getCellD gameState.grid target.row target.col).value with
          | some v =>
            if (getCellD gameState.grid target.row target.col).isFixed
                ∧ v ≠ gameState.lastVisitedNumber + 1 then
              false
            else true
          | none => true

/-- The non-rewind tail of `makeMove` (`src/game/logic.ts`, lines 159–194):
re-validate, then append the target and stamp its `visitedOrder`. -/
def makeMoveForward (gameState : GameState) (target : Coordinate) : GameState :=
  if !isValidMove gameState target then gameState
  else
    let targetCell := getCellD gameState.grid target.row target.col
    let newOrder : Int := (gameState.currentPath.length : Int) + 1
    let newGrid := setCell gameState.grid target.row target.col
      (fun cell => { cell with visitedOrder := some newOrder })
    let newLastVisited :=
      match targetCell.value with
      | some v => if targetCell.isFixed then v else gameState.lastVisitedNumber
      | none => gameState.lastVisitedNumber
    let newPath := gameState.currentPath ++ [target]
    let totalCells := gameState.level.rows * gameState.level.cols
    let isPathComplete := decide ((newPath.length : Int) = totalCells)
    let hasVisitedAllNumbers :=
      match listMax? (gameState.level.initialValues.map (·.value)) with
      | some maxNumber => decide (newLastVisited = maxNumber)
      | none => false
    { gameState with
      grid := newGrid
      currentPath := newPath
      lastVisitedNumber := newLastVisited
      isComplete := isPathComplete && hasVisitedAllNumbers }

/-- `makeMove` (`src/game/logic.ts`, lines 123–194).  A target found in
`currentPath` strictly before the last entry triggers the rewind branch;
otherwise the forward branch runs. -/
def makeMove (gameState : GameState) (target : Coordinate) : GameState :=
  match gameState.currentPath.findIdx? (fun p => decide (p = target)) with
  | some pathIndex =>
    if pathIndex < gameState.currentPath.length - 1 then
      let newGrid :=
        (gameState.currentPath.drop (pathIndex + 1)).foldl
          (fun g p => setCell g p.row p.col
            (fun cell => { cell with visitedOrder := none }))
          gameState.grid
      let newPath := gameState.currentPath.take (pathIndex + 1)
      let newLastVisited :=
        newPath.foldl
          (fun acc p =>
            let cell := getCellD newGrid p.row p.col
            match cell.value with
            | some v => if cell.isFixed ∧ acc < v then v else acc
            | none => acc)
          0
      { gameState with
        grid := newGrid
        currentPath := newPath
        lastVisitedNumber := newLastVisited
        isComplete := false }
    else makeMoveForward gameState target
  | none => makeMoveForward gameState target

/-! ### `src/game/types.ts`: the solvability verifier -/

/-- `DIRECTIONS` (`src/game/types.ts`, lines 39–48).  Eight entries: the four
orthogonal steps followed by the four diagonal steps. -/
def DIRECTIONS : List Coordinate :=
  [⟨-1, 0⟩, ⟨1, 0⟩, ⟨0, -1⟩, ⟨0, 1⟩, ⟨-1, -1⟩, ⟨-1, 1⟩, ⟨1, -1⟩, ⟨1, 1⟩]

/-- `isBlocked` inside `isPuzzleSolvable` (`src/game/types.ts`, lines 63–93).
A horizontal wall blocks a purely vertical step whose row interval covers the
wall; a vertical wall blocks a purely horizontal step likewise.  Diagonal
steps (both differences nonzero) match neither branch. -/
def isBlocked (walls : List Wall) (a b : Coordinate) : Bool :=
  walls.any (fun wall =>
    match wall.orientation with
    | .horizontal =>
      decide (b.row - a.row ≠ 0 ∧ b.col - a.col = 0 ∧ wall.col = a.col ∧
        min a.row b.row ≤ wall.row ∧ wall.row < max a.row b.row)
    | .vertical =>
      decide (b.col - a.col ≠ 0 ∧ b.row - a.row = 0 ∧ wall.row = a.row ∧
        min a.col b.col ≤ wall.col ∧ wall.col < max a.col b.col))

/-- One BFS step of `findPath`: scan `dirs` from the dequeued cell, enqueue
each unexplored unblocked in-bounds neighbour and mark it locally visited.
Mirrors the `for (const dir of DIRECTIONS)` loop body. -/
def bfsExpand (rows cols : Int) (walls : List Wall) (dirs : List Coordinate)
    (visited : List Coordinate) (pos : Coordinate) (path : List Coordinate)
    (acc : List (Coordinate × List Coordinate) × List Coordinate) :
    List (Coordinate × List Coordinate) × List Coordinate :=
  dirs.foldl
    (fun acc dir =>
      let next : Coordinate := ⟨pos.row + dir.row, pos.col + dir.col⟩
      if 0 ≤ next.row ∧ next.row < rows ∧ 0 ≤ next.col ∧ next.col < cols ∧
          next ∉ acc.2 ∧ next ∉ visited ∧ ¬ isBlocked walls pos next then
        (acc.1 ++ [(next, path ++ [next])], acc.2 ++ [next])
      else acc)
    acc

/-- The BFS loop of `findPath` (`src/game/types.ts`, lines 96–126), with an
explicit fuel bound on the number of dequeues.  Each enqueue adds a fresh
cell to `localVisited`, so the loop dequeues at most `rows*cols + 1` items;
any fuel of at least that size makes the fuel branch unreachable. -/
def bfsLoop (rows cols : Int) (walls : List Wall) (dirs : List Coordinate)
    (endP : Coordinate) (visited : List Coordinate) :
    Nat → List (Coordinate × List Coordinate) → List Coordinate →
      Option (List Coordinate)
  | 0, _, _ => none
  | _ + 1, [], _ => none
  | fuel + 1, (pos, path) :: queue, localVisited =>
    if pos = endP then some path
    else
      bfsLoop rows cols walls dirs endP visited fuel
        (bfsExpand rows cols walls dirs visited pos path
          (queue, localVisited)).1
        (bfsExpand rows cols walls dirs visited pos path
          (queue, localVisited)).2

/-- `findPath` (`src/game/types.ts`, lines 96–126), parameterised by the
direction list it scans (the source passes `DIRECTIONS`). -/
def findPath (rows cols : Int) (walls : List Wall) (dirs : List Coordinate)
    (start endP : Coordinate) (visited : List Coordinate) :
    Option (List Coordinate) :=
  bfsLoop rows cols walls dirs endP visited ((rows * cols).toNat + 2)
    [(start, [start])] [start]

/-- `numberPositions.get i`: the `Map` built with `set` keeps the last entry
written for each value, hence the reversed search. -/
def numberPosition (initialValues : List InitialValue) (i : Int) :
    Option Coordinate :=
  (initialValues.reverse.find? (fun iv => decide (iv.value = i))).map
    (fun iv => ⟨iv.row, iv.col⟩)

/-- One iteration of the clue loop in `isPuzzleSolvable` at clue value `i`:
`Except.error ()` embeds the `TypeError` thrown by the non-null assertions
when a clue value has no position, `Except.ok none` the early
`return false`, and `Except.ok (some v)` the updated cumulative visited
set. -/
def segStep (level : Level) (dirs : List Coordinate)
    (visited : List Coordinate) (i : Int) :
    Except Unit (Option (List Coordinate)) :=
  match numberPosition level.initialValues i with
  | none => .error ()
  | some currentPos =>
    if 1 < i then
      match numberPosition level.initialValues (i - 1) with
      | none => .error ()
      | some prevPos =>
        match findPath level.rows level.cols level.walls dirs prevPos
            currentPos visited with
        | none => .ok none
        | some path =>
          .ok (some (addUniq (path.dropLast.foldl addUniq visited) currentPos))
    else .ok (some (addUniq visited currentPos))

/-- The clue loop of `isPuzzleSolvable` over clue values `1, 2, …`. -/
def segLoop (level : Level) (dirs : List Coordinate) :
    List Int → List Coordinate → Except Unit (Option (List Coordinate))
  | [], visited => .ok (some visited)
  | i :: rest, visited =>
    match segStep level dirs visited i with
    | .error () => .error ()
    | .ok none => .ok none
    | .ok (some v) => segLoop level dirs rest v

/-- The clue values iterated by `for (let i = 1; i <= maxNumber; i++)`. -/
def clueRange (maxNumber : Int) : List Int :=
  (List.range maxNumber.toNat).map (fun k => (k : Int) + 1)

/-- The clue loop of `isPuzzleSolvable` from the empty visited set.  With no
initial values `Math.max()` is `-Infinity` and the loop body never runs. -/
def segmentsRun (level : Level) (dirs : List Coordinate) :
    Except Unit (Option (List Coordinate)) :=
  match listMax? (level.initialValues.map (·.value)) with
  | none => .ok (some [])
  | some maxNumber => segLoop level dirs (clueRange maxNumber) []

/-- `isPuzzleSolvable` (`src/game/types.ts`, lines 51–154), parameterised by
the direction list its BFS scans.  `none` embeds a thrown `TypeError`. -/
def isPuzzleSolvableWith (dirs : List Coordinate) (level : Level) :
    Option Bool :=
  match segmentsRun level dirs with
  | .error () => none
  | .ok none => some false
  | .ok (some visited) =>
    some (decide ((visited.length : Int) ≤ level.rows * level.cols))

/-- `isPuzzleSolvable` as shipped: its BFS scans all eight `DIRECTIONS`. -/
def isPuzzleSolvable (level : Level) : Option Bool :=
  isPuzzleSolvableWith DIRECTIONS level

/-- Modelled from the spec: the verifier §4.4 describes, word for word, a
breadth-first search "over the grid graph" with 4-connected moves only (§1
"does not support non-rectangular or non-4-connected grids"); this variant
runs the same verifier with the BFS restricted to the four orthogonal
directions, for comparison with the shipped `isPuzzleSolvable`. -/
def isPuzzleSolvableSpec4 (level : Level) : Option Bool :=
  isPuzzleSolvableWith (DIRECTIONS.take 4) level

/-! ### `src/game/types.ts`: `generateLevel`, clue counts and the fallback -/

/-- Difficulty levels of the generator. -/
inductive Difficulty where
  | easy
  | medium
  | hard
deriving DecidableEq, Repr

/-- The clue count of the main pipeline (`src/game/types.ts`, lines
172–178): `Math.floor(totalCells / 3|4|5)` by difficulty (`totalCells` is
nonnegative, so floored division is `Nat` division). -/
def numberCountFor (difficulty : Difficulty) (totalCells : Nat) : Nat :=
  match difficulty with
  | .easy => totalCells / 3
  | .medium => totalCells / 4
  | .hard => totalCells / 5

/-- The `while (indicesToMark.size < numberCount)` loop: draw indices from
the stream `proposals` until the set reaches `numberCount` elements (the
JavaScript loop draws from `Math.random()` for as long as it takes; a long
enough stream realises every run of it). -/
def fillIndices (numberCount : Nat) : List Nat → List Nat → List Nat
  | acc, [] => acc
  | acc, p :: ps =>
    if acc.length < numberCount then fillIndices numberCount (addUniq acc p) ps
    else acc

/-- The marked path indices of the fallback: `{0, path.length - 1}` grown by
the draw loop. -/
def markedIndices (pathLen : Nat) (numberCount : Nat)
    (proposals : List Nat) : List Nat :=
  fillIndices numberCount (addUniq (addUniq [] 0) (pathLen - 1)) proposals

/-- The `sortedIndices.forEach((pathIdx, i) => …)` body: skip index 0, give
the entry at forEach-position `i` the value `i + 1`. -/
def assignValues (path : List Coordinate) : Nat → List Nat → List InitialValue
  | _, [] => []
  | i, pathIdx :: rest =>
    if pathIdx = 0 then assignValues path (i + 1) rest
    else
      ⟨(path.getD pathIdx ⟨0, 0⟩).row, (path.getD pathIdx ⟨0, 0⟩).col,
        (i : Int) + 1⟩ :: assignValues path (i + 1) rest

/-- The `initialValues` list built from a path and its sorted marked
indices: the start entry with value 1 first, then the forEach entries. -/
def buildInitialValues (path : List Coordinate) (sortedIndices : List Nat) :
    List InitialValue :=
  ⟨(path.getD 0 ⟨0, 0⟩).row, (path.getD 0 ⟨0, 0⟩).col, 1⟩ ::
    assignValues path 0 sortedIndices

/-- The fallback branch of `generateLevel` (`src/game/types.ts`, lines
263–292): the freshly generated Hamiltonian path and the `Math.random()`
draws of the index loop are passed in explicitly; the clue count is
`Math.floor(rows*cols / 3)` with no reference to the difficulty, and the
wall list is empty. -/
def fallbackLevel (id : String) (rows cols : Int) (path : List Coordinate)
    (proposals : List Nat) : Level :=
  let numberCount := (rows * cols).toNat / 3
  let sortedIndices :=
    List.insertionSort (· ≤ ·) (markedIndices path.length numberCount proposals)
  { id := id
    rows := rows
    cols := cols
    initialValues := buildInitialValues path sortedIndices
    walls := [] }

/-! ### Concrete levels and states used by the claims -/

/-- A 2×2 level whose start clue is sealed off orthogonally: both walls
incident to `(0,0)` are present, and the clue 2 sits diagonally at
`(1,1)`. -/
def levelDiag : Level :=
  { id := "diag", rows := 2, cols := 2
    initialValues := [⟨0, 0, 1⟩, ⟨1, 1, 2⟩]
    walls := [⟨0, 0, .horizontal⟩, ⟨0, 0, .vertical⟩] }

/-- A 1×2 level with clues 1 and 2 on its two cells. -/
def levelTwo : Level :=
  { id := "two", rows := 1, cols := 2
    initialValues := [⟨0, 0, 1⟩, ⟨0, 1, 2⟩]
    walls := [] }

/-- A 1×3 level with clue 1 at `(0,0)` and clue 2 at `(0,2)`. -/
def levelThree : Level :=
  { id := "three", rows := 1, cols := 3
    initialValues := [⟨0, 0, 1⟩, ⟨0, 2, 2⟩]
    walls := [] }

/-- A wall-free 2×2 level with clues 1 at `(0,0)` and 2 at `(1,1)` (the
completion scenario of spec §8). -/
def levelSquare : Level :=
  { id := "square", rows := 2, cols := 2
    initialValues := [⟨0, 0, 1⟩, ⟨1, 1, 2⟩]
    walls := [] }

/-- A 1×2 level whose only clue has value 2, so no clue carries value 1. -/
def levelNoOne : Level :=
  { id := "noone", rows := 1, cols := 2
    initialValues := [⟨0, 0, 2⟩]
    walls := [] }

/-- The state on `levelThree` after the two accepted forward moves `(0,1)`
and `(0,2)`: its path is `[(0,0), (0,1), (0,2)]`. -/
def stateThree : GameState :=
  makeMove (makeMove (initializeGame levelThree) ⟨0, 1⟩) ⟨0, 2⟩

/-- The state on `levelSquare` after the accepted moves `(0,1)`, `(1,1)`,
`(1,0)`: the path covers all four cells and the state is complete. -/
def stateDone : GameState :=
  makeMove (makeMove (makeMove (initializeGame levelSquare) ⟨0, 1⟩) ⟨1, 1⟩)
    ⟨1, 0⟩

/-- A serpentine Hamiltonian path on the 3×4 grid. -/
def pathSerp : List Coordinate :=
  [⟨0, 0⟩, ⟨0, 1⟩, ⟨0, 2⟩, ⟨0, 3⟩, ⟨1, 3⟩, ⟨1, 2⟩, ⟨1, 1⟩, ⟨1, 0⟩,
    ⟨2, 0⟩, ⟨2, 1⟩, ⟨2, 2⟩, ⟨2, 3⟩]

/-! ### Helper lemmas about the grid primitives -/

theorem updAt_get? (f : α → α) :
    ∀ (l : List α) (n m : Nat),
      (updAt n f l).get? m = if m = n then (l.get? m).map f else l.get? m := by
  intro l
  induction l with
  | nil => intro n m; simp [updAt]
  | cons x xs ih =>
    intro n m
    cases n with
    | zero =>
      cases m with
      | zero => rfl
      | succ k => simp [updAt]
    | succ j =>
      cases m with
      | zero => simp [updAt]
      | succ k =>
        have hstep : (updAt (j + 1) f (x :: xs)).get? (k + 1)
            = (updAt j f xs).get? k := rfl
        rw [hstep, ih j k]
        by_cases h : k = j
        · subst h; simp
        · rw [if_neg h, if_neg (fun hk => h (Nat.succ_injective hk))]
          rfl

theorem getCell?_setCell_cases (g : List (List Cell)) (r c : Int)
    (f : Cell → Cell) (r' c' : Int) :
    getCell? (setCell g r c f) r' c' = getCell? g r' c' ∨
    getCell? (setCell g r c f) r' c' = (getCell? g r' c').map f := by
  unfold setCell getCell?
  by_cases hrc : r < 0 ∨ c < 0
  · simp [hrc]
  · rw [if_neg hrc]
    by_cases hrc' : r' < 0 ∨ c' < 0
    · simp [hrc']
    · rw [if_neg hrc', if_neg hrc']
      rw [updAt_get?]
      by_cases hr : r'.toNat = r.toNat
      · rw [if_pos hr]
        cases hrow : g.get? r'.toNat with
        | none => left; rfl
        | some row =>
          have hmap : (((some row).map (updAt c.toNat f)).bind
              (fun row => row.get? c'.toNat))
              = (updAt c.toNat f row).get? c'.toNat := rfl
          rw [hmap, updAt_get?]
          by_cases hcn : c'.toNat = c.toNat
          · rw [if_pos hcn]; right; rfl
          · rw [if_neg hcn]; left; rfl
      · rw [if_neg hr]; left; rfl

theorem getCell?_setCell_proj {β : Type} (proj : Cell → β) (f : Cell → Cell)
    (hf : ∀ cell, proj (f cell) = proj cell) (g : List (List Cell))
    (r c r' c' : Int) :
    (getCell? (setCell g r c f) r' c').map proj
      = (getCell? g r' c').map proj := by
  rcases getCell?_setCell_cases g r c f r' c' with h | h
  · rw [h]
  · rw [h]
    cases getCell? g r' c' with
    | none => rfl
    | some cell => simp [hf]

theorem foldl_preserve {α β : Type} {P : β → Prop} (f : β → α → β)
    (h : ∀ b a, P b → P (f b a)) :
    ∀ (l : List α) (b : β), P b → P (l.foldl f b) := by
  intro l
  induction l with
  | nil => intro b hb; exact hb
  | cons x xs ih => intro b hb; exact ih (f b x) (h b x hb)

/-! ### Helper lemmas about `addUniq` -/

theorem mem_addUniq [DecidableEq α] (s : List α) (x y : α) :
    y ∈ addUniq s x ↔ y ∈ s ∨ y = x := by
  unfold addUniq
  by_cases h : x ∈ s
  · simp only [if_pos h]
    constructor
    · exact Or.inl
    · rintro (hy | rfl)
      · exact hy
      · exact h
  · simp [if_neg h]

theorem addUniq_nodup [DecidableEq α] (s : List α) (x : α) (hs : s.Nodup) :
    (addUniq s x).Nodup := by
  unfold addUniq
  by_cases h : x ∈ s
  · simpa [h]
  · simp only [if_neg h]
    rw [List.nodup_append]
    refine ⟨hs, List.nodup_singleton x, ?_⟩
    intro a ha hax
    rw [List.mem_singleton] at hax
    subst hax
    exact h ha

theorem mem_foldl_addUniq [DecidableEq α] :
    ∀ (l : List α) (s : List α) (y : α),
      y ∈ l.foldl addUniq s → y ∈ s ∨ y ∈ l := by
  intro l
  induction l with
  | nil => intro s y h; exact Or.inl h
  | cons x xs ih =>
    intro s y h
    rcases ih (addUniq s x) y h with h' | h'
    · rcases (mem_addUniq s x y).mp h' with h'' | h''
      · exact Or.inl h''
      · exact Or.inr (by rw [h'']; exact List.mem_cons_self x xs)
    · exact Or.inr (List.mem_cons_of_mem x h')

theorem foldl_addUniq_nodup [DecidableEq α] :
    ∀ (l : List α) (s : List α), s.Nodup → (l.foldl addUniq s).Nodup := by
  intro l
  induction l with
  | nil => intro s hs; exact hs
  | cons x xs ih => intro s hs; exact ih (addUniq s x) (addUniq_nodup s x hs)

theorem findIdx?_eq_none_of_not_mem [DecidableEq α] (l : List α) (t : α)
    (h : t ∉ l) : l.findIdx? (fun p => decide (p = t)) = none := by
  rw [List.findIdx?_eq_none_iff]
  intro x hx
  simp only [decide_eq_false_iff_not]
  intro hxt
  exact h (hxt ▸ hx)

/-! ### Helper lemmas for the fallback clue placement -/

theorem fillIndices_mem (n : Nat) :
    ∀ (ps acc : List Nat) (x : Nat), x ∈ acc → x ∈ fillIndices n acc ps := by
  intro ps
  induction ps with
  | nil => intro acc x hx; exact hx
  | cons p ps ih =>
    intro acc x hx
    simp only [fillIndices]
    split
    · exact ih _ x ((mem_addUniq acc p x).mpr (Or.inl hx))
    · exact hx

theorem fillIndices_subset (n : Nat) :
    ∀ (ps acc : List Nat) (y : Nat),
      y ∈ fillIndices n acc ps → y ∈ acc ∨ y ∈ ps := by
  intro ps
  induction ps with
  | nil => intro acc y hy; exact Or.inl hy
  | cons p ps ih =>
    intro acc y hy
    simp only [fillIndices] at hy
    split at hy
    · rcases ih _ y hy with h | h
      · rcases (mem_addUniq acc p y).mp h with h | h
        · exact Or.inl h
        · exact Or.inr (by rw [h]; exact List.mem_cons_self p ps)
      · exact Or.inr (List.mem_cons_of_mem p h)
    · exact Or.inl hy

theorem fillIndices_nodup (n : Nat) :
    ∀ (ps acc : List Nat), acc.Nodup → (fillIndices n acc ps).Nodup := by
  intro ps
  induction ps with
  | nil => intro acc h; exact h
  | cons p ps ih =>
    intro acc h
    simp only [fillIndices]
    split
    · exact ih _ (addUniq_nodup acc p h)
    · exact h

theorem sorted_cons_zero {l : List Nat} (hs : l.Sorted (· ≤ ·)) (hm : 0 ∈ l)
    (hn : l.Nodup) : ∃ rest, l = 0 :: rest ∧ 0 ∉ rest := by
  cases l with
  | nil => cases hm
  | cons a rest =>
    have ha : a = 0 := by
      rcases List.mem_cons.mp hm with h | h
      · omega
      · have := List.rel_of_sorted_cons hs 0 h
        omega
    subst ha
    exact ⟨rest, rfl, (List.nodup_cons.mp hn).1⟩

theorem sorted_getLast?_eq :
    ∀ (l : List Nat) (b : Nat), l.Sorted (· ≤ ·) → b ∈ l →
      (∀ y ∈ l, y ≤ b) → l.getLast? = some b := by
  intro l
  induction l with
  | nil => intro b _ hb; cases hb
  | cons a rest ih =>
    intro b hs hb hmax
    cases rest with
    | nil =>
      have : b = a := List.mem_singleton.mp hb
      rw [this]
      rfl
    | cons c t =>
      rw [List.getLast?_cons_cons]
      have hbmem : b ∈ c :: t := by
        rcases List.mem_cons.mp hb with h | h
        · have hac : a ≤ c := List.rel_of_sorted_cons hs c
            (List.mem_cons_self c t)
          have hcb : c ≤ b := hmax c (List.mem_cons_of_mem a
            (List.mem_cons_self c t))
          have : c = b := by omega
          rw [← this]
          exact List.mem_cons_self c t
        · exact h
      exact ih b hs.of_cons hbmem
        (fun y hy => hmax y (List.mem_cons_of_mem a hy))

theorem getLast?_cons_of_ne_nil {l : List α} (a : α) (h : l ≠ []) :
    (a :: l).getLast? = l.getLast? := by
  cases l with
  | nil => exact absurd rfl h
  | cons b t => exact List.getLast?_cons_cons

theorem assignValues_ne_nil (path : List Coordinate) (i : Nat) (b : Nat)
    (rest : List Nat) (h : 0 ∉ b :: rest) :
    assignValues path i (b :: rest) ≠ [] := by
  have hb : b ≠ 0 := fun hb => h (hb ▸ List.mem_cons_self b rest)
  simp only [assignValues, if_neg hb]
  exact List.cons_ne_nil _ _

theorem assignValues_map_value (path : List Coordinate) :
    ∀ (rest : List Nat) (i : Nat), 0 ∉ rest →
      (assignValues path i rest).map (·.value)
        = (List.range rest.length).map (fun j => ((i + j : Nat) : Int) + 1) := by
  intro rest
  induction rest with
  | nil => intro i _; rfl
  | cons a rest ih =>
    intro i h0
    have ha : a ≠ 0 := fun h => h0 (h ▸ List.mem_cons_self a rest)
    simp only [assignValues, if_neg ha, List.map_cons]
    rw [ih (i + 1) (fun h => h0 (List.mem_cons_of_mem a h))]
    rw [List.length_cons, List.range_succ_eq_map, List.map_cons, List.map_map]
    refine List.cons_eq_cons.mpr ⟨by norm_num, ?_⟩
    refine List.map_congr_left ?_
    intro j _
    have : ((i + 1) + j : Nat) = (i + Nat.succ j : Nat) := by omega
    rw [show ((fun j => ((i + j : Nat) : Int) + 1) ∘ Nat.succ) j
      = ((i + Nat.succ j : Nat) : Int) + 1 from rfl, ← this]

theorem assignValues_getLast? (path : List Coordinate) :
    ∀ (rest : List Nat) (i x : Nat), 0 ∉ rest → rest.getLast? = some x →
      (assignValues path i rest).getLast?
        = some ⟨(path.getD x ⟨0, 0⟩).row, (path.getD x ⟨0, 0⟩).col,
            (i : Int) + rest.length⟩ := by
  intro rest
  induction rest with
  | nil => intro i x _ hx; cases hx
  | cons a rest ih =>
    intro i x h0 hx
    have ha : a ≠ 0 := fun h => h0 (h ▸ List.mem_cons_self a rest)
    cases rest with
    | nil =>
      have hax : a = x := by
        have : some a = some x := hx
        injection this
      subst hax
      simp only [assignValues, if_neg ha]
      rfl
    | cons b rest2 =>
      rw [List.getLast?_cons_cons] at hx
      have h0' : 0 ∉ b :: rest2 := fun h => h0 (List.mem_cons_of_mem a h)
      have hstep : assignValues path i (a :: b :: rest2)
          = ⟨(path.getD a ⟨0, 0⟩).row, (path.getD a ⟨0, 0⟩).col, (i : Int) + 1⟩
            :: assignValues path (i + 1) (b :: rest2) := by
        rw [assignValues, if_neg ha]
      rw [hstep, getLast?_cons_of_ne_nil _
        (assignValues_ne_nil path (i + 1) b rest2 h0')]
      rw [ih (i + 1) x h0' hx]
      refine congrArg some ?_
      have hval : ((i + 1 : Nat) : Int) + ((b :: rest2).length : Int)
          = (i : Int) + ((a :: b :: rest2).length : Int) := by
        simp only [List.length_cons]
        push_cast
        ring
      rw [show (⟨(path.getD x ⟨0, 0⟩).row, (path.getD x ⟨0, 0⟩).col,
          ((i + 1 : Nat) : Int) + ((b :: rest2).length : Int)⟩ : InitialValue)
        = ⟨(path.getD x ⟨0, 0⟩).row, (path.getD x ⟨0, 0⟩).col,
          (i : Int) + ((a :: b :: rest2).length : Int)⟩ from by rw [hval]]

/-! ### Claim theorems -/

/-- C1: the claim states the per-segment BFS of `isPuzzleSolvable` explores
only 4-connected (orthogonal) steps and that `verify` returns `false`
whenever some consecutive clue pair admits no 4-connected path.  The shipped
BFS iterates all eight `DIRECTIONS`, diagonals included, and walls never
block a diagonal step: on `levelDiag` the start clue `(0,0)` is cut off from
both orthogonal neighbours by walls, so no 4-connected path to clue 2 at
`(1,1)` exists (the spec-faithful 4-direction verifier returns `false`), yet
the shipped verifier reaches `(1,1)` diagonally and returns `true`. -/
theorem C1_bfs_is_eight_connected :
    isPuzzleSolvable levelDiag = some true ∧
    isPuzzleSolvableSpec4 levelDiag = some false := by
  decide

/-- C2 counterexample: on the state with path `[(0,0), (0,1), (0,2)]`, the
target `(0,0)` lies at index 0 — deeper than the second-to-last entry — and
the claim says `isValidMove` rejects it; the code accepts it. -/
theorem C2_interior_target_accepted :
    stateThree.currentPath = [⟨0, 0⟩, ⟨0, 1⟩, ⟨0, 2⟩] ∧
    isValidMove stateThree ⟨0, 0⟩ = true := by
  decide

/-- C2 amended: `isValidMove` permits a target that already appears in
`currentPath` unconditionally — at any index, however deep in the interior —
whenever the path is nonempty and the target is in bounds; and `makeMove`
rewinds to any such target found strictly before the last entry, truncating
the path to end at it and clearing `isComplete`. -/
theorem C2_in_path_always_allowed (s : GameState) (t : Coordinate) :
    (s.currentPath ≠ [] →
      ¬(t.row < 0 ∨ t.row ≥ s.level.rows ∨ t.col < 0 ∨ t.col ≥ s.level.cols) →
      t ∈ s.currentPath → isValidMove s t = true) ∧
    (∀ i, s.currentPath.findIdx? (fun p => decide (p = t)) = some i →
      i + 1 < s.currentPath.length →
      (makeMove s t).currentPath = s.currentPath.take (i + 1) ∧
      (makeMove s t).isComplete = false) := by
  constructor
  · intro hne hb hmem
    unfold isValidMove
    split
    · next heq => exact absurd (List.getLast?_eq_none_iff.mp heq) hne
    · next current heq =>
      rw [if_neg hb]
      split
      · rfl
      · next hnone =>
        have hfalse := List.findIdx?_eq_none_iff.mp hnone t hmem
        simp at hfalse
  · intro i hidx hlt
    unfold makeMove
    split
    · next j hj =>
      rw [hidx] at hj
      injection hj with hj
      subst hj
      rw [if_pos (by omega : i < s.currentPath.length - 1)]
      exact ⟨rfl, rfl⟩
    · next hj =>
      rw [hidx] at hj
      cases hj

/-- C2 witness: the amended theorem applied on `stateThree` with the
interior target `(0,0)` at path index 0. -/
theorem C2_in_path_always_allowed_witness :
    isValidMove stateThree ⟨0, 0⟩ = true ∧
    (makeMove stateThree ⟨0, 0⟩).currentPath = [⟨0, 0⟩] := by
  constructor
  · exact (C2_in_path_always_allowed stateThree ⟨0, 0⟩).1 (by decide)
      (by decide) (by decide)
  · have h := ((C2_in_path_always_allowed stateThree ⟨0, 0⟩).2 0 (by decide)
      (by decide)).1
    rw [h]
    decide

/-- C3: the claim states `makeMove` is a no-op on every completed state.
The code has no completion guard: on the completed state `stateDone` (full
path over `levelSquare`, `isComplete = true`), targeting the second-to-last
cell `(1,1)` runs the rewind branch, truncating the path from four entries
to three and forcing `isComplete` back to `false`. -/
theorem C3_completed_state_rewound :
    stateDone.isComplete = true ∧
    (makeMove stateDone ⟨1, 1⟩).currentPath = [⟨0, 0⟩, ⟨0, 1⟩, ⟨1, 1⟩] ∧
    (makeMove stateDone ⟨1, 1⟩).isComplete = false := by
  decide

/-- C4: the claim states `makeMove` returns the state unchanged on every
target that is neither a legal forward move nor a permitted rewind,
explicitly including a target equal to the current path head.  On the
freshly initialised `levelTwo` state (path `[(0,0)]`), the head `(0,0)` is
already visited and not a rewind, yet `isValidMove` accepts any in-path
target, the rewind branch of `makeMove` excludes the last index, and the
forward branch appends the head again, overwriting its `visitedOrder`. -/
theorem C4_head_target_appended :
    (initializeGame levelTwo).currentPath = [⟨0, 0⟩] ∧
    (makeMove (initializeGame levelTwo) ⟨0, 0⟩).currentPath
      = [⟨0, 0⟩, ⟨0, 0⟩] := by
  decide

/-- C5: the claim states the grid/path correspondence (`currentPath[k]` is
the unique cell with `visitedOrder = k+1`) holds in every state reachable
from `initializeGame` by `makeMove` calls.  One reachable step breaks it:
after `makeMove` on the path head of the fresh `levelTwo` state, the path
holds `(0,0)` at indices 0 and 1 while the cell `(0,0)` carries
`visitedOrder = 2` — no cell carries `visitedOrder = 1` for index 0, and
one path entry corresponds to two indices. -/
theorem C5_correspondence_broken :
    (makeMove (initializeGame levelTwo) ⟨0, 0⟩).currentPath
      = [⟨0, 0⟩, ⟨0, 0⟩] ∧
    (getCellD (makeMove (initializeGame levelTwo) ⟨0, 0⟩).grid 0 0).visitedOrder
      = some 2 := by
  decide

/-- C6 counterexample: on the freshly initialised `levelThree` state the
cell `(0,0)` is fixed with clue value 1 while `lastVisitedNumber + 1 = 2`,
yet `isValidMove` accepts `(0,0)` because it already lies in the path —
the in-path branch returns `true` before the sequence check runs. -/
theorem C6_fixed_wrong_clue_accepted :
    (getCellD (initializeGame levelThree).grid 0 0).isFixed = true ∧
    (getCellD (initializeGame levelThree).grid 0 0).value = some 1 ∧
    (initializeGame levelThree).lastVisitedNumber = 1 ∧
    isValidMove (initializeGame levelThree) ⟨0, 0⟩ = true := by
  decide

/-- C6 amended: for every state and every target **not already in
`currentPath`** whose grid cell is fixed and carries a clue value different
from `lastVisitedNumber + 1`, `isValidMove` returns `false`, regardless of
adjacency or wall state; a target already in the path is exempt, since the
in-path (rewind) branch accepts it before the sequence check. -/
theorem C6_sequence_enforced_outside_path (s : GameState) (t : Coordinate)
    (v : Int) (hmem : t ∉ s.currentPath)
    (hfix : (getCellD s.grid t.row t.col).isFixed = true)
    (hval : (getCellD s.grid t.row t.col).value = some v)
    (hseq : v ≠ s.lastVisitedNumber + 1) :
    isValidMove s t = false := by
  unfold isValidMove
  split
  · rfl
  · next current heq =>
    split
    · rfl
    · next hb =>
      have hnone := findIdx?_eq_none_of_not_mem s.currentPath t hmem
      split
      · next j hj => rw [hnone] at hj; cases hj
      · split
        · rfl
        · split
          · rfl
          · split
            · rfl
            · split
              · next v' hv' =>
                rw [hval] at hv'
                injection hv' with hv'
                subst hv'
                rw [if_pos ⟨hfix, hseq⟩]
              · next hv' => rw [hval] at hv'; cases hv'

/-- A 1×3 level with clue 1 at `(0,0)` and clue 3 at `(0,2)`: after
initialisation, the fixed cell `(0,2)` carries a value different from
`lastVisitedNumber + 1 = 2`. -/
def levelGap : Level :=
  { id := "gap", rows := 1, cols := 3
    initialValues := [⟨0, 0, 1⟩, ⟨0, 2, 3⟩]
    walls := [] }

/-- C6 witness: the amended theorem applied on the fresh `levelGap` state —
the target `(0,2)` is outside the path, fixed, and carries clue 3 while
`lastVisitedNumber + 1 = 2`, so the move is rejected. -/
theorem C6_sequence_enforced_outside_path_witness :
    isValidMove (initializeGame levelGap) ⟨0, 2⟩ = false := by
  exact C6_sequence_enforced_outside_path (initializeGame levelGap) ⟨0, 2⟩ 3
    (by decide) (by decide) (by decide) (by decide)

/-- C7 counterexample: the claim says the fallback applies the
difficulty-dependent clue fraction; the fallback block has no difficulty
parameter at all and always uses `totalCells / 3`.  On a 3×4 grid at
difficulty `medium`, the main pipeline's clue count is
`floor(12 / 4) = 3`, while the fallback built from a serpentine Hamiltonian
path (with draws 5, 3 completing the marked set) places 4 clues. -/
theorem C7_fallback_count_mismatch :
    (fallbackLevel "f" 3 4 pathSerp [5, 3]).initialValues.length = 4 ∧
    numberCountFor Difficulty.medium 12 = 3 := by
  decide

/-- C7 amended: the fallback level always has an empty wall set, its clue
values are exactly `1..k` assigned in ascending path order (`k` the number
of marked indices), the first clue is value 1 at the path start and the last
clue is value `k` at the path end — but its clue count target is always
`floor(totalCells / 3)`, the easy fraction, regardless of difficulty
(the fallback block never consults the difficulty). -/
theorem C7_fallback_shape (id : String) (rows cols : Int)
    (path : List Coordinate) (proposals : List Nat)
    (hlen : 2 ≤ path.length)
    (hprop : ∀ q ∈ proposals, q < path.length) :
    (fallbackLevel id rows cols path proposals).walls = [] ∧
    (fallbackLevel id rows cols path proposals).initialValues.map (·.value)
      = (List.range
          (fallbackLevel id rows cols path proposals).initialValues.length).map
          (fun j : Nat => (j : Int) + 1) ∧
    (fallbackLevel id rows cols path proposals).initialValues.head?
      = some ⟨(path.getD 0 ⟨0, 0⟩).row, (path.getD 0 ⟨0, 0⟩).col, 1⟩ ∧
    (fallbackLevel id rows cols path proposals).initialValues.getLast?
      = some ⟨(path.getD (path.length - 1) ⟨0, 0⟩).row,
          (path.getD (path.length - 1) ⟨0, 0⟩).col,
          ((fallbackLevel id rows cols path proposals).initialValues.length
            : Int)⟩ := by
  have hacc0 : 0 ∈ addUniq (addUniq ([] : List Nat) 0) (path.length - 1) :=
    (mem_addUniq _ _ 0).mpr (Or.inl ((mem_addUniq [] 0 0).mpr (Or.inr rfl)))
  have hmarked0 :
      0 ∈ markedIndices path.length ((rows * cols).toNat / 3) proposals := by
    unfold markedIndices
    exact fillIndices_mem _ proposals _ 0 hacc0
  have hmarkedLast : path.length - 1
      ∈ markedIndices path.length ((rows * cols).toNat / 3) proposals := by
    unfold markedIndices
    exact fillIndices_mem _ proposals _ _ ((mem_addUniq _ _ _).mpr (Or.inr rfl))
  have hmarkedNodup :
      (markedIndices path.length ((rows * cols).toNat / 3) proposals).Nodup := by
    unfold markedIndices
    exact fillIndices_nodup _ proposals _
      (addUniq_nodup _ _ (addUniq_nodup [] 0 List.nodup_nil))
  have hmarkedBound : ∀ x ∈ markedIndices path.length
      ((rows * cols).toNat / 3) proposals, x ≤ path.length - 1 := by
    intro x hx
    unfold markedIndices at hx
    rcases fillIndices_subset _ proposals _ x hx with h | h
    · rcases (mem_addUniq _ _ x).mp h with h | h
      · rcases (mem_addUniq [] 0 x).mp h with h | h
        · cases h
        · omega
      · omega
    · have := hprop x h
      omega
  have hsorted : (List.insertionSort (· ≤ ·)
      (markedIndices path.length ((rows * cols).toNat / 3) proposals)).Sorted
        (· ≤ ·) :=
    List.sorted_insertionSort _ _
  have hperm := List.perm_insertionSort (· ≤ ·)
    (markedIndices path.length ((rows * cols).toNat / 3) proposals)
  have hlnodup := hperm.nodup_iff.mpr hmarkedNodup
  have hl0 := hperm.mem_iff.mpr hmarked0
  have hlLast := hperm.mem_iff.mpr hmarkedLast
  have hlBound : ∀ x ∈ List.insertionSort (· ≤ ·)
      (markedIndices path.length ((rows * cols).toNat / 3) proposals),
      x ≤ path.length - 1 :=
    fun x hx => hmarkedBound x (hperm.mem_iff.mp hx)
  obtain ⟨rest, hl, h0rest⟩ := sorted_cons_zero hsorted hl0 hlnodup
  rw [hl] at hsorted hlLast hlBound
  have hrestmem : path.length - 1 ∈ rest := by
    rcases List.mem_cons.mp hlLast with h | h
    · omega
    · exact h
  have hrestne : rest ≠ [] := List.ne_nil_of_mem hrestmem
  have hrestLast : rest.getLast? = some (path.length - 1) :=
    sorted_getLast?_eq rest _ hsorted.of_cons hrestmem
      (fun y hy => hlBound y (List.mem_cons_of_mem 0 hy))
  have hstep0 : assignValues path 0 (0 :: rest) = assignValues path 1 rest := by
    rw [assignValues, if_pos rfl]
  have hmapv := assignValues_map_value path rest 1 h0rest
  have hlenA : (assignValues path 1 rest).length = rest.length := by
    have := congrArg List.length hmapv
    simpa using this
  obtain ⟨b, rest2, hbr⟩ := List.exists_cons_of_ne_nil hrestne
  simp only [fallbackLevel, buildInitialValues]
  rw [hl, hstep0]
  refine ⟨by trivial, ?_, by trivial, ?_⟩
  · rw [List.map_cons, hmapv, List.length_cons, hlenA,
      List.range_succ_eq_map, List.map_cons, List.map_map]
    refine List.cons_eq_cons.mpr ⟨by norm_num, ?_⟩
    refine List.map_congr_left ?_
    intro j _
    show ((1 + j : Nat) : Int) + 1 = ((Nat.succ j : Nat) : Int) + 1
    push_cast
    ring
  · rw [getLast?_cons_of_ne_nil _
      (by rw [hbr]; exact assignValues_ne_nil path 1 b rest2 (hbr ▸ h0rest))]
    rw [assignValues_getLast? path rest 1 (path.length - 1) h0rest hrestLast]
    refine congrArg some ?_
    have hval : (1 : Int) + (rest.length : Int)
        = (((assignValues path 1 rest).length + 1 : Nat) : Int) := by
      rw [hlenA]
      push_cast
      ring
    rw [show (⟨(path.getD (path.length - 1) ⟨0, 0⟩).row,
        (path.getD (path.length - 1) ⟨0, 0⟩).col,
        ((1 : Nat) : Int) + (rest.length : Int)⟩ : InitialValue)
      = ⟨(path.getD (path.length - 1) ⟨0, 0⟩).row,
        (path.getD (path.length - 1) ⟨0, 0⟩).col,
        (((assignValues path 1 rest).length + 1 : Nat) : Int)⟩ from by
        rw [show ((1 : Nat) : Int) = (1 : Int) from rfl, hval]]
    rfl

/-- C7 witness: the amended theorem applied to the serpentine 3×4 path with
draws `[5, 3]`: the fallback level has no walls, clue values `1..4`
ascending, value 1 at the path start `(0,0)` and value 4 at the path end
`(2,3)`. -/
theorem C7_fallback_shape_witness :
    (fallbackLevel "f" 3 4 pathSerp [5, 3]).walls = [] ∧
    (fallbackLevel "f" 3 4 pathSerp [5, 3]).initialValues.map (·.value)
      = (List.range
          (fallbackLevel "f" 3 4 pathSerp [5, 3]).initialValues.length).map
          (fun j : Nat => (j : Int) + 1) ∧
    (fallbackLevel "f" 3 4 pathSerp [5, 3]).initialValues.head?
      = some ⟨(pathSerp.getD 0 ⟨0, 0⟩).row, (pathSerp.getD 0 ⟨0, 0⟩).col, 1⟩ ∧
    (fallbackLevel "f" 3 4 pathSerp [5, 3]).initialValues.getLast?
      = some ⟨(pathSerp.getD (pathSerp.length - 1) ⟨0, 0⟩).row,
          (pathSerp.getD (pathSerp.length - 1) ⟨0, 0⟩).col,
          ((fallbackLevel "f" 3 4 pathSerp [5, 3]).initialValues.length
            : Int)⟩ := by
  exact C7_fallback_shape "f" 3 4 pathSerp [5, 3] (by decide) (by decide)

/-- The frame projection of a cell: every field except `visitedOrder`. -/
def cellFrame (cell : Cell) : Int × Int × Option Int × Bool :=
  (cell.row, cell.col, cell.value, cell.isFixed)

/-- C9: `makeMove` never touches the `level` field, and every grid cell
keeps its position, `value` and `isFixed` flag (observed through `getCell?`,
which also fixes the grid's shape); only `visitedOrder`, `currentPath`,
`lastVisitedNumber` and `isComplete` can change. -/
theorem C9_makeMove_frame (s : GameState) (t : Coordinate) :
    (makeMove s t).level = s.level ∧
    ∀ r c, (getCell? (makeMove s t).grid r c).map cellFrame
      = (getCell? s.grid r c).map cellFrame := by
  have hforward : (makeMoveForward s t).level = s.level ∧
      ∀ r c, (getCell? (makeMoveForward s t).grid r c).map cellFrame
        = (getCell? s.grid r c).map cellFrame := by
    unfold makeMoveForward
    split
    · exact ⟨rfl, fun r c => rfl⟩
    · refine ⟨rfl, fun r c => ?_⟩
      exact getCell?_setCell_proj cellFrame
        (fun cell =>
          { cell with visitedOrder := some ((s.currentPath.length : Int) + 1) })
        (fun cell => rfl) s.grid t.row t.col r c
  have hrewind : ∀ (l : List Coordinate) (g : List (List Cell)),
      (∀ r c, (getCell? g r c).map cellFrame
        = (getCell? s.grid r c).map cellFrame) →
      ∀ r c,
        (getCell? (l.foldl (fun g p => setCell g p.row p.col
          (fun cell => { cell with visitedOrder := none })) g) r c).map cellFrame
        = (getCell? s.grid r c).map cellFrame := by
    intro l
    intro g hg
    refine @foldl_preserve Coordinate (List (List Cell))
      (fun g => ∀ r c, (getCell? g r c).map cellFrame
        = (getCell? s.grid r c).map cellFrame) _ ?_ l g hg
    intro g' p hg' r c
    rw [getCell?_setCell_proj cellFrame (fun cell =>
      { cell with visitedOrder := none }) (fun cell => rfl) g' p.row p.col r c]
    exact hg' r c
  unfold makeMove
  split
  · next i hi =>
    split
    · exact ⟨rfl, fun r c => hrewind (s.currentPath.drop (i + 1)) s.grid
        (fun r c => rfl) r c⟩
    · exact hforward
  · exact hforward

/-- C10: if no initial value carries clue 1, `initializeGame` produces the
empty-path state with `lastVisitedNumber = 0`, `isComplete = false` and no
visited cell; `makeMove` on any empty-path state returns it unchanged for
every target, and hence any sequence of moves leaves it unchanged — the
session is permanently stuck. -/
theorem C10_no_start_clue_stuck :
    (∀ level : Level, (∀ iv ∈ level.initialValues, iv.value ≠ 1) →
      (initializeGame level).currentPath = [] ∧
      (initializeGame level).lastVisitedNumber = 0 ∧
      (initializeGame level).isComplete = false ∧
      ∀ r c cell, getCell? (initializeGame level).grid r c = some cell →
        cell.visitedOrder = none) ∧
    (∀ s : GameState, s.currentPath = [] → ∀ t, makeMove s t = s) ∧
    (∀ s : GameState, s.currentPath = [] →
      ∀ ts : List Coordinate, ts.foldl makeMove s = s) := by
  have hstuck : ∀ s : GameState, s.currentPath = [] → ∀ t, makeMove s t = s := by
    intro s hs t
    have hvalid : isValidMove s t = false := by
      unfold isValidMove
      rw [hs]
      rfl
    have hmf : makeMove s t = makeMoveForward s t := by
      unfold makeMove
      rw [hs]
      rfl
    rw [hmf]
    unfold makeMoveForward
    rw [hvalid]
    rfl
  refine ⟨?_, hstuck, ?_⟩
  · intro level hno
    have hfind : level.initialValues.find? (fun v => decide (v.value = 1))
        = none := by
      rw [List.find?_eq_none]
      intro iv hiv
      simp only [decide_eq_true_eq]
      exact hno iv hiv
    unfold initializeGame
    rw [hfind]
    refine ⟨rfl, rfl, rfl, ?_⟩
    intro r c cell
    have base : ∀ r c cell,
        getCell? ((List.range level.rows.toNat).map (fun r =>
          (List.range level.cols.toNat).map (fun c =>
            (⟨(r : Int), (c : Int), none, false, none⟩ : Cell)))) r c
          = some cell →
        cell.visitedOrder = none := by
      intro r c cell hcell
      unfold getCell? at hcell
      split at hcell
      · cases hcell
      · cases hrow : (List.range level.rows.toNat).map (fun r =>
            (List.range level.cols.toNat).map (fun c =>
              (⟨(r : Int), (c : Int), none, false, none⟩ : Cell))) |>.get?
            r.toNat with
        | none => rw [hrow] at hcell; cases hcell
        | some row =>
          rw [hrow] at hcell
          have hrmem := List.get?_mem hrow
          have hcmem := List.get?_mem hcell
          rcases List.mem_map.mp hrmem with ⟨r0, _, hr0⟩
          subst hr0
          rcases List.mem_map.mp hcmem with ⟨c0, _, hc0⟩
          rw [show cell = (⟨(r0 : Int), (c0 : Int), none, false, none⟩ : Cell)
            from hc0.symm]
    refine @foldl_preserve InitialValue (List (List Cell))
      (fun g => ∀ r c cell, getCell? g r c = some cell →
        cell.visitedOrder = none)
      (fun g iv => setCell g iv.row iv.col
        (fun cell => { cell with value := some iv.value, isFixed := true }))
      ?_ level.initialValues _ base r c cell
    intro g iv hg r c cell hcell
    rcases getCell?_setCell_cases g iv.row iv.col
        (fun cell => { cell with value := some iv.value, isFixed := true })
        r c with h | h
    · rw [h] at hcell
      exact hg r c cell hcell
    · rw [h] at hcell
      rcases Option.map_eq_some'.mp hcell with ⟨cell0, hcell0, hmap⟩
      rw [← hmap]
      exact hg r c cell0 hcell0
  · intro s hs ts
    induction ts with
    | nil => rfl
    | cons t ts ih =>
      rw [List.foldl_cons, hstuck s hs t]
      exact ih

/-! ### Helper lemmas for the verifier (C8) -/

/-- In-bounds predicate of the BFS guard. -/
def inBounds (rows cols : Int) (p : Coordinate) : Prop :=
  0 ≤ p.row ∧ p.row < rows ∧ 0 ≤ p.col ∧ p.col < cols

theorem bfsExpand_paths (rows cols : Int) (walls : List Wall)
    (dirs : List Coordinate) (visited : List Coordinate) (pos : Coordinate)
    (path : List Coordinate) (hp : ∀ x ∈ path, inBounds rows cols x)
    (acc : List (Coordinate × List Coordinate) × List Coordinate)
    (hacc : ∀ pr ∈ acc.1, ∀ x ∈ pr.2, inBounds rows cols x) :
    ∀ pr ∈ (bfsExpand rows cols walls dirs visited pos path acc).1,
      ∀ x ∈ pr.2, inBounds rows cols x := by
  unfold bfsExpand
  refine @foldl_preserve Coordinate
    (List (Coordinate × List Coordinate) × List Coordinate)
    (fun acc => ∀ pr ∈ acc.1, ∀ x ∈ pr.2, inBounds rows cols x)
    _ ?_ dirs acc hacc
  intro a dir ha
  dsimp only
  split
  · next hcond =>
    intro pr hpr
    rcases List.mem_append.mp hpr with h | h
    · exact ha pr h
    · rw [List.mem_singleton] at h
      subst h
      intro x hx
      rcases List.mem_append.mp hx with hx | hx
      · exact hp x hx
      · rw [List.mem_singleton] at hx
        subst hx
        exact ⟨hcond.1, hcond.2.1, hcond.2.2.1, hcond.2.2.2.1⟩
  · exact ha

theorem bfsLoop_inBounds (rows cols : Int) (walls : List Wall)
    (dirs : List Coordinate) (endP : Coordinate) (visited : List Coordinate) :
    ∀ (fuel : Nat) (queue : List (Coordinate × List Coordinate))
      (lv : List Coordinate),
      (∀ pr ∈ queue, ∀ x ∈ pr.2, inBounds rows cols x) →
      ∀ path,
        bfsLoop rows cols walls dirs endP visited fuel queue lv = some path →
        ∀ x ∈ path, inBounds rows cols x := by
  intro fuel
  induction fuel with
  | zero => intro queue lv hq path h; cases h
  | succ fuel ih =>
    intro queue lv hq path h
    cases queue with
    | nil => cases h
    | cons head queue =>
      obtain ⟨pos, p⟩ := head
      simp only [bfsLoop] at h
      split at h
      · injection h with h
        subst h
        exact fun x hx => hq (pos, p) (List.mem_cons_self _ _) x hx
      · exact ih _ _
          (bfsExpand_paths rows cols walls dirs visited pos p
            (fun x hx => hq (pos, p) (List.mem_cons_self _ _) x hx)
            (queue, lv) (fun pr hpr => hq pr (List.mem_cons_of_mem _ hpr)))
          path h

theorem findPath_inBounds (rows cols : Int) (walls : List Wall)
    (dirs : List Coordinate) (start endP : Coordinate)
    (visited : List Coordinate) (hstart : inBounds rows cols start) :
    ∀ path, findPath rows cols walls dirs start endP visited = some path →
      ∀ x ∈ path, inBounds rows cols x := by
  intro path h
  refine bfsLoop_inBounds rows cols walls dirs endP visited _ _ _ ?_ path h
  intro pr hpr
  rw [List.mem_singleton] at hpr
  subst hpr
  intro x hx
  rw [List.mem_singleton] at hx
  subst hx
  exact hstart

theorem numberPosition_inBounds (level : Level)
    (hiv : ∀ iv ∈ level.initialValues, 0 ≤ iv.row ∧ iv.row < level.rows ∧
      0 ≤ iv.col ∧ iv.col < level.cols) (i : Int) (pos : Coordinate)
    (h : numberPosition level.initialValues i = some pos) :
    inBounds level.rows level.cols pos := by
  unfold numberPosition at h
  rcases Option.map_eq_some'.mp h with ⟨iv, hfind, hpos⟩
  have hmem := List.mem_of_find?_eq_some hfind
  rw [List.mem_reverse] at hmem
  have hb := hiv iv hmem
  rw [← hpos]
  exact ⟨hb.1, hb.2.1, hb.2.2.1, hb.2.2.2⟩

/-- The cumulative visited set stays duplicate-free and in-bounds. -/
def goodVisited (level : Level) (v : List Coordinate) : Prop :=
  v.Nodup ∧ ∀ x ∈ v, inBounds level.rows level.cols x

theorem goodVisited_addUniq (level : Level) (v : List Coordinate)
    (x : Coordinate) (hv : goodVisited level v)
    (hx : inBounds level.rows level.cols x) :
    goodVisited level (addUniq v x) := by
  refine ⟨addUniq_nodup v x hv.1, ?_⟩
  intro y hy
  rcases (mem_addUniq v x y).mp hy with h | h
  · exact hv.2 y h
  · rw [h]; exact hx

theorem segStep_good (level : Level) (dirs : List Coordinate)
    (hiv : ∀ iv ∈ level.initialValues, 0 ≤ iv.row ∧ iv.row < level.rows ∧
      0 ≤ iv.col ∧ iv.col < level.cols)
    (visited : List Coordinate) (hv : goodVisited level visited) (i : Int)
    (v' : List Coordinate) (h : segStep level dirs visited i = .ok (some v')) :
    goodVisited level v' := by
  unfold segStep at h
  split at h
  · exact Except.noConfusion h
  · next currentPos hcur =>
    have hcb := numberPosition_inBounds level hiv i currentPos hcur
    split at h
    · split at h
      · exact Except.noConfusion h
      · next prevPos hprev =>
        have hpb := numberPosition_inBounds level hiv (i - 1) prevPos hprev
        split at h
        · injection h with h
          exact Option.noConfusion h
        · next path hfp =>
          injection h with h
          injection h with h
          subst h
          refine goodVisited_addUniq level _ currentPos ⟨?_, ?_⟩ hcb
          · exact foldl_addUniq_nodup _ _ hv.1
          · intro x hx
            rcases mem_foldl_addUniq _ _ x hx with hx | hx
            · exact hv.2 x hx
            · exact findPath_inBounds level.rows level.cols level.walls dirs
                prevPos currentPos visited hpb path hfp x
                ((List.dropLast_sublist path).subset hx)
    · injection h with h
      injection h with h
      subst h
      exact goodVisited_addUniq level visited currentPos hv hcb

theorem segLoop_good (level : Level) (dirs : List Coordinate)
    (hiv : ∀ iv ∈ level.initialValues, 0 ≤ iv.row ∧ iv.row < level.rows ∧
      0 ≤ iv.col ∧ iv.col < level.cols) :
    ∀ (is : List Int) (visited : List Coordinate),
      goodVisited level visited →
      ∀ v, segLoop level dirs is visited = .ok (some v) →
        goodVisited level v := by
  intro is
  induction is with
  | nil =>
    intro visited hv v h
    injection h with h
    injection h with h
    subst h
    exact hv
  | cons i rest ih =>
    intro visited hv v h
    unfold segLoop at h
    split at h
    · exact Except.noConfusion h
    · injection h with h
      exact Option.noConfusion h
    · next v1 hstep =>
      exact ih v1 (segStep_good level dirs hiv visited hv i v1 hstep) v h

theorem segmentsRun_good (level : Level) (dirs : List Coordinate)
    (hiv : ∀ iv ∈ level.initialValues, 0 ≤ iv.row ∧ iv.row < level.rows ∧
      0 ≤ iv.col ∧ iv.col < level.cols)
    (v : List Coordinate) (h : segmentsRun level dirs = .ok (some v)) :
    goodVisited level v := by
  unfold segmentsRun at h
  split at h
  · injection h with h
    injection h with h
    subst h
    exact ⟨List.nodup_nil, fun x hx => absurd hx (List.not_mem_nil x)⟩
  · exact segLoop_good level dirs hiv _ []
      ⟨List.nodup_nil, fun x hx => absurd hx (List.not_mem_nil x)⟩ v h

/-- Every in-bounds coordinate, listed row by row. -/
def allCoords (rows cols : Int) : List Coordinate :=
  (List.range rows.toNat).flatMap (fun (r : Nat) =>
    (List.range cols.toNat).map (fun (c : Nat) =>
      (⟨(r : Int), (c : Int)⟩ : Coordinate)))

theorem length_allCoords (rows cols : Int) :
    (allCoords rows cols).length = rows.toNat * cols.toNat := by
  unfold allCoords
  rw [List.length_flatMap]
  have key : ∀ (n : Nat), (List.map (List.length ∘ fun (r : Nat) =>
      (List.range cols.toNat).map (fun (c : Nat) =>
        (⟨(r : Int), (c : Int)⟩ : Coordinate))) (List.range n)).sum
      = n * cols.toNat := by
    intro n
    induction n with
    | zero => simp
    | succ k ihk =>
      rw [List.range_succ, List.map_append, List.sum_append, ihk]
      simp only [List.map_cons, List.map_nil, List.sum_cons, List.sum_nil,
        Function.comp, List.length_map, List.length_range]
      ring
  rw [key]

theorem mem_allCoords (rows cols : Int) (x : Coordinate)
    (hx : inBounds rows cols x) : x ∈ allCoords rows cols := by
  obtain ⟨r, c⟩ := x
  obtain ⟨h1, h2, h3, h4⟩ := hx
  dsimp only at h1 h2 h3 h4
  unfold allCoords
  rw [List.mem_flatMap]
  refine ⟨r.toNat, ?_, ?_⟩
  · rw [List.mem_range]; omega
  · rw [List.mem_map]
    refine ⟨c.toNat, by rw [List.mem_range]; omega, ?_⟩
    rw [Int.toNat_of_nonneg h1, Int.toNat_of_nonneg h3]

theorem goodVisited_length (level : Level) (hr : 0 ≤ level.rows)
    (hc : 0 ≤ level.cols) (v : List Coordinate) (hg : goodVisited level v) :
    (v.length : Int) ≤ level.rows * level.cols := by
  have hsub : v ⊆ allCoords level.rows level.cols :=
    fun x hx => mem_allCoords _ _ x (hg.2 x hx)
  have hle := (hg.1.subperm hsub).length_le
  rw [length_allCoords] at hle
  zify at hle
  rw [Int.toNat_of_nonneg hr, Int.toNat_of_nonneg hc] at hle
  exact hle

/-- C8: under the level well-formedness precondition (clue positions in
bounds, nonnegative dimensions), `isPuzzleSolvable` returns `true` exactly
when the clue-segment loop succeeds: the final `visited.size <= totalCells`
check can never fail, because the cumulative visited set is duplicate-free
and only ever contains in-bounds cells, so it adds no condition. -/
theorem C8_verify_iff_segments (level : Level)
    (hr : 0 ≤ level.rows) (hc : 0 ≤ level.cols)
    (hiv : ∀ iv ∈ level.initialValues, 0 ≤ iv.row ∧ iv.row < level.rows ∧
      0 ≤ iv.col ∧ iv.col < level.cols) :
    isPuzzleSolvable level = some true ↔
      ∃ v, segmentsRun level DIRECTIONS = .ok (some v) := by
  unfold isPuzzleSolvable isPuzzleSolvableWith
  constructor
  · intro h
    split at h
    · exact Option.noConfusion h
    · injection h with h
      exact Bool.noConfusion h
    · next v hv => exact ⟨v, hv⟩
  · rintro ⟨v, hv⟩
    rw [hv]
    have hgood := segmentsRun_good level DIRECTIONS hiv v hv
    have hlen := goodVisited_length level hr hc v hgood
    simp only [Option.some.injEq, decide_eq_true_eq]
    exact hlen

/-- C8 witness: the equivalence applied to the concrete `levelTwo`. -/
theorem C8_verify_iff_segments_witness :
    isPuzzleSolvable levelTwo = some true ↔
      ∃ v, segmentsRun levelTwo DIRECTIONS = .ok (some v) :=
  C8_verify_iff_segments levelTwo (by decide) (by decide) (by decide)

/-- C10 witness: on `levelNoOne` (its only clue has value 2) the session
starts with an empty path and is stuck for the tried targets. -/
theorem C10_no_start_clue_stuck_witness :
    (initializeGame levelNoOne).currentPath = [] ∧
    (initializeGame levelNoOne).lastVisitedNumber = 0 ∧
    makeMove (initializeGame levelNoOne) ⟨0, 1⟩ = initializeGame levelNoOne ∧
    [⟨0, 1⟩, ⟨0, 0⟩].foldl makeMove (initializeGame levelNoOne)
      = initializeGame levelNoOne := by
  refine ⟨(C10_no_start_clue_stuck.1 levelNoOne (by decide)).1,
    (C10_no_start_clue_stuck.1 levelNoOne (by decide)).2.1,
    C10_no_start_clue_stuck.2.1 (initializeGame levelNoOne) (by decide) ⟨0, 1⟩,
    C10_no_start_clue_stuck.2.2 (initializeGame levelNoOne) (by decide)
      [⟨0, 1⟩, ⟨0, 0⟩]⟩
